import Mathlib

/-!
Shallow embedding of the gfx-mem layered device-memory sub-allocator
(src/lib.rs, src/chunked.rs, src/combined.rs, src/smart.rs) and proofs about it.

Conventions of the embedding:
* `u64`/`usize` values become `Nat`; none of the verified properties depend on
  wrap-around, and debug overflow/underflow checks as well as `assert!`,
  `debug_assert!`, slice indexing and `.unwrap()` panics are modelled as the
  explicit `fault` outcome.
* `&mut self` methods become state-passing functions returning the outcome
  together with the updated state, so that an early `?` return leaves the parts
  of the state not yet touched unchanged, exactly as in the source.
* `VecDeque` becomes a `List` whose head is the front of the deque.
-/

namespace GfxMem

/-- Error taxonomy of the crate (src/lib.rs, `MemoryError`). -/
inductive MemoryError where
  | NoCompatibleMemoryType
  | OutOfMemory
  | TooManyObjects
deriving DecidableEq

/-- Result of running one operation of the embedded program: a value, a reported
`MemoryError`, or `fault` for a Rust panic (failed assertion, out-of-bounds index,
arithmetic overflow in a debug build, `.unwrap()` of an error). -/
inductive Outcome (α : Type) where
  | ok (a : α)
  | err (e : MemoryError)
  | fault
deriving DecidableEq

/-- True exactly on the `ok` constructor. -/
def Outcome.isOk {α : Type} [DecidableEq α] : Outcome α → Bool
  | .ok _ => true
  | _ => false

/-- Result of `dispose(self, ...) -> Result<(), Self>`: success consumes the
allocator, failure hands it back unchanged, and `fault` is a panic. -/
inductive Disposal (σ : Type) where
  | ok
  | kept (s : σ)
  | fault
deriving DecidableEq

/-- `gfx_hal::memory::Requirements`: size, alignment and memory-type bitmask of
an allocation request. -/
structure Requirements where
  size : Nat
  alignment : Nat
  typeMask : Nat
deriving DecidableEq

/-- A raw block (src/block.rs is outside the embedded core): a byte range inside
one device memory object; `memory` is the handle of that object. -/
structure RawBlock where
  memory : Nat
  start : Nat
  stop : Nat
deriving DecidableEq

/-- Block length in bytes, `Block::size()`. -/
def RawBlock.size (b : RawBlock) : Nat := b.stop - b.start

/-- Shift from specified offset to fulfill required alignment
(src/lib.rs, `shift_for_alignment`). -/
def shiftForAlignment (alignment offset : Nat) : Nat :=
  if 0 < offset ∧ 0 < alignment then ((offset - 1) ||| (alignment - 1)) + 1 else offset

/-- Calculate shift from specified offset required to satisfy alignment
(src/lib.rs, `alignment_shift`). -/
def alignmentShift (alignment offset : Nat) : Nat :=
  shiftForAlignment alignment offset - offset

/-- Signature of the owner's `alloc` as consumed by a sub-allocator
(`MemoryAllocator::alloc`, with the `&mut self` receiver made explicit).
The chunked code is generic over the owner type `A`, mirrored by `σ` here. -/
def OwnerAlloc (σ : Type) : Type := σ → Requirements → Outcome RawBlock × σ

/-- Signature of the owner's `free`. -/
def OwnerFree (σ : Type) : Type := σ → RawBlock → σ

/-- Number of binary digits of `q`; `fuel`-driven so that the kernel can
evaluate it (the fuel `q` itself always suffices). For `q : u64` this equals
`64 - q.leading_zeros()`, the expression used by `pick_node`. -/
def bitLenFuel : Nat → Nat → Nat
  | 0, _ => 0
  | fuel + 1, n => if n = 0 then 0 else bitLenFuel fuel (n / 2) + 1

/-- Bit length of a natural number, `64 - leading_zeros` on `u64` values. -/
def bitLen (n : Nat) : Nat := bitLenFuel n n

/-- One size class of the Chunked tier (src/chunked.rs, `ChunkedNode`):
`free` is the deque of free `(superblock index, chunk index)` pairs, `blocks`
the superblocks paired with their alignment-adjusted base offset. -/
structure ChunkedNode where
  id : Nat
  chunksPerBlock : Nat
  chunkSize : Nat
  free : List (Nat × Nat)
  blocks : List (RawBlock × Nat)
deriving DecidableEq

/-- `ChunkedNode::new`. -/
def ChunkedNode.new (chunkSize chunksPerBlock id : Nat) : ChunkedNode :=
  ⟨id, chunksPerBlock, chunkSize, [], []⟩

/-- `ChunkedNode::count`: total chunk capacity over all superblocks. -/
def ChunkedNode.count (n : ChunkedNode) : Nat :=
  n.blocks.length * n.chunksPerBlock

/-- `ChunkedNode::grow`: request one superblock of `chunk_size * chunks_per_block`
bytes at alignment `chunk_size` from the owner, then enqueue `chunks_per_block`
fresh free entries tagged with the new superblock index and push the superblock.
The division-by-zero and `u64` underflow panics of the assertion line are
modelled as `fault`. -/
def ChunkedNode.grow {σ : Type} (oa : OwnerAlloc σ) (n : ChunkedNode) (owner : σ) :
    Outcome Unit × ChunkedNode × σ :=
  let reqs : Requirements :=
    ⟨n.chunkSize * n.chunksPerBlock, n.chunkSize, 2 ^ n.id⟩
  match oa owner reqs with
  | (.ok block, owner1) =>
    if n.chunkSize = 0 then (.fault, n, owner1)
    else
      let offset := shiftForAlignment n.chunkSize block.start
      if block.size < offset then (.fault, n, owner1)
      else if n.chunksPerBlock ≤ (block.size - offset) / n.chunkSize then
        (.ok (), { n with
            free := n.free ++ (List.range n.chunksPerBlock).map fun i => (n.blocks.length, i),
            blocks := n.blocks ++ [(block, offset)] }, owner1)
      else (.fault, n, owner1)
  | (.err e, owner1) => (.err e, n, owner1)
  | (.fault, owner1) => (.fault, n, owner1)

/-- `ChunkedNode::alloc_no_grow`: pop the front of the free deque and build the
block `[offset, offset + chunk_size)` tagged with its superblock index. -/
def ChunkedNode.allocNoGrow (n : ChunkedNode) :
    Outcome (Option ((RawBlock × Nat) × ChunkedNode)) :=
  match n.free with
  | [] => .ok none
  | (blockIndex, chunkIndex) :: rest =>
    match n.blocks[blockIndex]? with
    | none => .fault
    | some (sb, base) =>
      let offset := base + chunkIndex * n.chunkSize
      .ok (some ((⟨sb.memory, offset, n.chunkSize + offset⟩, blockIndex),
        { n with free := rest }))

/-- `ChunkedNode::alloc` (`MemorySubAllocator` impl): check the type-mask bit,
assert the size-class preconditions, then pop a free chunk, growing first if
the free deque is empty. -/
def ChunkedNode.alloc {σ : Type} (oa : OwnerAlloc σ) (n : ChunkedNode) (owner : σ)
    (reqs : Requirements) : Outcome (RawBlock × Nat) × ChunkedNode × σ :=
  if 2 ^ n.id &&& reqs.typeMask = 0 then (.err .NoCompatibleMemoryType, n, owner)
  else if n.chunkSize < reqs.size then (.fault, n, owner)
  else if n.chunkSize < reqs.alignment then (.fault, n, owner)
  else
    match n.allocNoGrow with
    | .ok (some (bt, n1)) => (.ok bt, n1, owner)
    | .ok none =>
      match n.grow oa owner with
      | (.ok _, n1, owner1) =>
        match n1.allocNoGrow with
        | .ok (some (bt, n2)) => (.ok bt, n2, owner1)
        | .ok none => (.fault, n1, owner1)
        | .err _ => (.fault, n1, owner1)
        | .fault => (.fault, n1, owner1)
      | (.err e, n1, owner1) => (.err e, n1, owner1)
      | (.fault, n1, owner1) => (.fault, n1, owner1)
    | .err _ => (.fault, n, owner)
    | .fault => (.fault, n, owner)

/-- `ChunkedNode::free`: validate size and alignment of the returned block,
recover the superblock from the tag, compute the chunk index and push the pair
to the front of the free deque. (Named `freeBlock` because the Lean structure
already exposes the `free` deque field; the source method is `free`.) -/
def ChunkedNode.freeBlock (n : ChunkedNode) (b : RawBlock) (tag : Nat) :
    Outcome Unit × ChunkedNode :=
  if n.chunkSize = 0 then (.fault, n)
  else if b.start % n.chunkSize ≠ 0 then (.fault, n)
  else if b.size ≠ n.chunkSize then (.fault, n)
  else
    match n.blocks[tag]? with
    | none => (.fault, n)
    | some (_, base) =>
      if b.start < base then (.fault, n)
      else
        let chunkIndex := (b.start - base) / n.chunkSize
        (.ok (), { n with free := (tag, chunkIndex) :: n.free })

/-- `ChunkedNode::is_unused`: every chunk is on the free deque. -/
def ChunkedNode.isUnused (n : ChunkedNode) : Bool :=
  n.count == n.free.length

/-- `ChunkedNode::dispose`: when unused, return every superblock to the owner;
otherwise hand the node back. -/
def ChunkedNode.dispose {σ : Type} (ofree : OwnerFree σ) (n : ChunkedNode) (owner : σ) :
    Disposal ChunkedNode × σ :=
  if n.isUnused then (.ok, n.blocks.foldl (fun ow p => ofree ow p.1) owner)
  else (.kept n, owner)

/-- The Chunked pool (src/chunked.rs, `ChunkedAllocator`): a lazily grown array
of size-class nodes. -/
structure ChunkedAllocator where
  id : Nat
  chunksPerBlock : Nat
  minChunkSize : Nat
  maxChunkSize : Nat
  nodes : List ChunkedNode
deriving DecidableEq

/-- `ChunkedAllocator::new`. -/
def ChunkedAllocator.new (chunksPerBlock minChunkSize maxChunkSize id : Nat) :
    ChunkedAllocator :=
  ⟨id, chunksPerBlock, minChunkSize, maxChunkSize, []⟩

/-- `ChunkedAllocator::pick_node`: the `debug_assert!(size <= max_chunk_size)`,
the `assert!(size != 0)` and the division by a zero `min_chunk_size` fault;
otherwise the node index is the bit length of `(size - 1) / min_chunk_size`
(`bits - leading_zeros`). -/
def ChunkedAllocator.pickNode (a : ChunkedAllocator) (size : Nat) : Outcome Nat :=
  if a.maxChunkSize < size then .fault
  else if size = 0 then .fault
  else if a.minChunkSize = 0 then .fault
  else .ok (bitLen ((size - 1) / a.minChunkSize))

/-- `ChunkedAllocator::grow`: assert the chunk size at index `size` stays within
`max_chunk_size`, then append the missing nodes for indices `len .. size`
(inclusive), each of chunk size `min_chunk_size * 2^index`. -/
def ChunkedAllocator.grow (a : ChunkedAllocator) (size : Nat) : Outcome ChunkedAllocator :=
  if a.maxChunkSize < a.minChunkSize * 2 ^ size then .fault
  else
    let len := a.nodes.length
    .ok { a with nodes := a.nodes ++
      (List.range' len (size + 1 - len)).map fun i =>
        ChunkedNode.new (a.minChunkSize * 2 ^ i) a.chunksPerBlock a.id }

/-- `ChunkedAllocator::alloc`: reject oversized requests with `OutOfMemory`,
pick the size-class index, grow the node array to `index + 1` and delegate to
the node at `index`. -/
def ChunkedAllocator.alloc {σ : Type} (oa : OwnerAlloc σ) (a : ChunkedAllocator)
    (owner : σ) (reqs : Requirements) :
    Outcome (RawBlock × Nat) × ChunkedAllocator × σ :=
  if a.maxChunkSize < reqs.size then (.err .OutOfMemory, a, owner)
  else
    match a.pickNode reqs.size with
    | .ok index =>
      match a.grow (index + 1) with
      | .ok a1 =>
        match a1.nodes[index]? with
        | none => (.fault, a1, owner)
        | some node =>
          match ChunkedNode.alloc oa node owner reqs with
          | (out, node1, owner1) =>
            (out, { a1 with nodes := a1.nodes.set index node1 }, owner1)
      | .err e => (.err e, a, owner)
      | .fault => (.fault, a, owner)
    | .err e => (.err e, a, owner)
    | .fault => (.fault, a, owner)

/-- `ChunkedAllocator::free`: the block's size alone determines the node. -/
def ChunkedAllocator.free (a : ChunkedAllocator) (b : RawBlock) (tag : Nat) :
    Outcome Unit × ChunkedAllocator :=
  match a.pickNode b.size with
  | .ok index =>
    match a.nodes[index]? with
    | none => (.fault, a)
    | some node =>
      match node.freeBlock b tag with
      | (out, node1) => (out, { a with nodes := a.nodes.set index node1 })
  | .err _ => (.fault, a)
  | .fault => (.fault, a)

/-- `ChunkedAllocator::is_unused`: all nodes simultaneously unused. -/
def ChunkedAllocator.isUnused (a : ChunkedAllocator) : Bool :=
  a.nodes.all ChunkedNode.isUnused

/-- The `is_used` view consumed by `CombinedAllocator` (`MemoryAllocator` naming). -/
def ChunkedAllocator.isUsed (a : ChunkedAllocator) : Bool :=
  !a.isUnused

/-- Sequential disposal of the drained node list; a node whose `dispose` hands
itself back makes the surrounding `.unwrap()` panic. -/
def disposeNodes {σ : Type} (ofree : OwnerFree σ) :
    List ChunkedNode → σ → Disposal Unit × σ
  | [], ow => (.ok, ow)
  | n :: rest, ow =>
    match ChunkedNode.dispose ofree n ow with
    | (.ok, ow1) => disposeNodes ofree rest ow1
    | (.kept _, ow1) => (.fault, ow1)
    | (.fault, ow1) => (.fault, ow1)

/-- `ChunkedAllocator::dispose`: all-or-nothing over the node array. -/
def ChunkedAllocator.dispose {σ : Type} (ofree : OwnerFree σ) (a : ChunkedAllocator)
    (owner : σ) : Disposal ChunkedAllocator × σ :=
  if a.isUnused then
    match disposeNodes ofree a.nodes owner with
    | (.ok, ow1) => (.ok, ow1)
    | (.kept _, ow1) => (.fault, ow1)
    | (.fault, ow1) => (.fault, ow1)
  else (.kept a, owner)

/-- Modelled from the spec: `RootAllocator` (src/root.rs is not under src/).
Per spec §2/§6 it is the leaf, one instance per device memory-type id, that
allocates and frees whole device memory regions directly with no internal
structure. The device is modelled as an unbounded supply of fresh memory
objects: each `alloc` returns a new memory object whose usable range is
`[0, size)`, and the allocator counts its outstanding regions; `dispose`
fails while any region is outstanding. -/
structure RootAllocator where
  id : Nat
  allocations : Nat
  freshMemory : Nat
deriving DecidableEq

/-- Modelled from the spec: `RootAllocator::new`. -/
def RootAllocator.new (id : Nat) : RootAllocator := ⟨id, 0, 0⟩

/-- Modelled from the spec: `RootAllocator::alloc`, a pure pass-through to the
device returning one whole fresh memory region of the requested size. -/
def RootAllocator.alloc : OwnerAlloc RootAllocator := fun r reqs =>
  (.ok ⟨r.freshMemory, 0, reqs.size⟩,
    { r with allocations := r.allocations + 1, freshMemory := r.freshMemory + 1 })

/-- Modelled from the spec: `RootAllocator::free` returns one region to the device. -/
def RootAllocator.free : OwnerFree RootAllocator := fun r _ =>
  { r with allocations := r.allocations - 1 }

/-- Modelled from the spec: `RootAllocator::is_used`. -/
def RootAllocator.isUsed (r : RootAllocator) : Bool := r.allocations != 0

/-- Modelled from the spec: `RootAllocator::dispose` fails while used. -/
def RootAllocator.dispose (r : RootAllocator) : Disposal RootAllocator :=
  if r.allocations = 0 then .ok else .kept r

/-- Modelled from the spec: `ArenaAllocator` (src/arena.rs is not under src/).
Per spec §2 it is a ring-buffer sub-allocator for short-lived blocks built on
an owner, whose internal reuse policy is explicitly outside the embedded core.
We model a list of fixed-size arenas obtained from the owner, a bump cursor in
the newest arena and a count of outstanding blocks; `free` decrements the
count, `dispose` fails while used and otherwise returns the arenas to the
owner. The tag of a produced block is the index of its arena. -/
structure ArenaAllocator where
  arenaSize : Nat
  id : Nat
  arenas : List RawBlock
  cursor : Nat
  allocations : Nat
deriving DecidableEq

/-- Modelled from the spec: `ArenaAllocator::new`. -/
def ArenaAllocator.new (arenaSize id : Nat) : ArenaAllocator :=
  ⟨arenaSize, id, [], 0, 0⟩

/-- Modelled from the spec: `ArenaAllocator::alloc`; bump-allocates in the
newest arena, requesting a new arena from the owner when the current one lacks
room for the aligned request. -/
def ArenaAllocator.alloc {σ : Type} (oa : OwnerAlloc σ) (a : ArenaAllocator)
    (owner : σ) (reqs : Requirements) :
    Outcome (RawBlock × Nat) × ArenaAllocator × σ :=
  if a.arenaSize < reqs.size then (.err .OutOfMemory, a, owner)
  else
    let aligned := shiftForAlignment reqs.alignment a.cursor
    match a.arenas.getLast? with
    | some arena =>
      if aligned + reqs.size ≤ a.arenaSize then
        (.ok (⟨arena.memory, aligned, aligned + reqs.size⟩, a.arenas.length - 1),
          { a with cursor := aligned + reqs.size, allocations := a.allocations + 1 },
          owner)
      else
        match oa owner ⟨a.arenaSize, reqs.alignment, 2 ^ a.id⟩ with
        | (.ok blk, owner1) =>
          (.ok (⟨blk.memory, 0, reqs.size⟩, a.arenas.length),
            { a with
              arenas := a.arenas ++ [blk]
              cursor := reqs.size
              allocations := a.allocations + 1 }, owner1)
        | (.err e, owner1) => (.err e, a, owner1)
        | (.fault, owner1) => (.fault, a, owner1)
    | none =>
      match oa owner ⟨a.arenaSize, reqs.alignment, 2 ^ a.id⟩ with
      | (.ok blk, owner1) =>
        (.ok (⟨blk.memory, 0, reqs.size⟩, a.arenas.length),
          { a with
            arenas := a.arenas ++ [blk]
            cursor := reqs.size
            allocations := a.allocations + 1 }, owner1)
      | (.err e, owner1) => (.err e, a, owner1)
      | (.fault, owner1) => (.fault, a, owner1)

/-- Modelled from the spec: `ArenaAllocator::free` releases one outstanding
short-lived block (the ring-buffer bookkeeping itself is out of scope). -/
def ArenaAllocator.freeBlock (a : ArenaAllocator) (_b : RawBlock) (_tag : Nat) :
    ArenaAllocator :=
  { a with allocations := a.allocations - 1 }

/-- Modelled from the spec: `ArenaAllocator::is_used`. -/
def ArenaAllocator.isUsed (a : ArenaAllocator) : Bool := a.allocations != 0

/-- Modelled from the spec: `ArenaAllocator::dispose` fails while used,
otherwise returns every arena to the owner. -/
def ArenaAllocator.dispose {σ : Type} (ofree : OwnerFree σ) (a : ArenaAllocator)
    (owner : σ) : Disposal ArenaAllocator × σ :=
  if a.allocations = 0 then (.ok, a.arenas.foldl ofree owner)
  else (.kept a, owner)

/-- Request kind of the Combined dispatcher (src/combined.rs, `Type`; renamed
because `Type` is a Lean keyword). -/
inductive RequestType where
  | ShortLived
  | General
deriving DecidableEq

/-- Provenance tag of a block produced by the Combined dispatcher
(src/combined.rs, `CombinedTag`). -/
inductive CombinedTag where
  | arena (t : Nat)
  | chunked (t : Nat)
  | root
deriving DecidableEq

/-- A block wrapped with its provenance (src/combined.rs, `CombinedBlock`). -/
structure CombinedBlock where
  raw : RawBlock
  tag : CombinedTag
deriving DecidableEq

/-- Block length of a combined block (the `Block` impl delegates to the raw block). -/
def CombinedBlock.size (b : CombinedBlock) : Nat := b.raw.size

/-- The Combined dispatcher (src/combined.rs, `CombinedAllocator`): one Root,
one Arena, one Chunked pool for a single memory type, plus the live-allocation
counter. -/
structure CombinedAllocator where
  root : RootAllocator
  arenas : ArenaAllocator
  chunks : ChunkedAllocator
  allocations : Nat
deriving DecidableEq

/-- `CombinedAllocator::new`. -/
def CombinedAllocator.new (memoryTypeId arenaSize blocksPerChunk minBlockSize
    maxChunkSize : Nat) : CombinedAllocator :=
  ⟨RootAllocator.new memoryTypeId,
    ArenaAllocator.new arenaSize memoryTypeId,
    ChunkedAllocator.new blocksPerChunk minBlockSize maxChunkSize memoryTypeId, 0⟩

/-- `CombinedAllocator::alloc`: route by request kind (`ShortLived` to the
Arena; `General` to the Root when the size exceeds `max_chunk_size`, else to
the Chunked pool), wrap the block with its provenance tag and increment the
allocation counter on success. -/
def CombinedAllocator.alloc (c : CombinedAllocator) (request : RequestType)
    (reqs : Requirements) : Outcome CombinedBlock × CombinedAllocator :=
  match request with
  | .ShortLived =>
    match ArenaAllocator.alloc RootAllocator.alloc c.arenas c.root reqs with
    | (out, ar1, root1) =>
      let c1 := { c with arenas := ar1, root := root1 }
      match out with
      | .ok (blk, tag) =>
        (.ok ⟨blk, .arena tag⟩, { c1 with allocations := c1.allocations + 1 })
      | .err e => (.err e, c1)
      | .fault => (.fault, c1)
  | .General =>
    if c.chunks.maxChunkSize < reqs.size then
      match RootAllocator.alloc c.root reqs with
      | (out, root1) =>
        let c1 := { c with root := root1 }
        match out with
        | .ok blk => (.ok ⟨blk, .root⟩, { c1 with allocations := c1.allocations + 1 })
        | .err e => (.err e, c1)
        | .fault => (.fault, c1)
    else
      match ChunkedAllocator.alloc RootAllocator.alloc c.chunks c.root reqs with
      | (out, ch1, root1) =>
        let c1 := { c with chunks := ch1, root := root1 }
        match out with
        | .ok (blk, tag) =>
          (.ok ⟨blk, .chunked tag⟩, { c1 with allocations := c1.allocations + 1 })
        | .err e => (.err e, c1)
        | .fault => (.fault, c1)

/-- `CombinedAllocator::free`: un-wrap the provenance tag, route to the matching
sub-allocator and decrement the counter (whose `usize` underflow in a debug
build is modelled as a fault). -/
def CombinedAllocator.freeBlock (c : CombinedAllocator) (b : CombinedBlock) :
    Outcome Unit × CombinedAllocator :=
  let step : Outcome Unit × CombinedAllocator :=
    match b.tag with
    | .arena tag =>
      (.ok (), { c with arenas := c.arenas.freeBlock b.raw tag })
    | .chunked tag =>
      match ChunkedAllocator.free c.chunks b.raw tag with
      | (out, ch1) => (out, { c with chunks := ch1 })
    | .root => (.ok (), { c with root := RootAllocator.free c.root b.raw })
  match step with
  | (.ok _, c1) =>
    if c1.allocations = 0 then (.fault, c1)
    else (.ok (), { c1 with allocations := c1.allocations - 1 })
  | other => other

/-- `CombinedAllocator::is_used` exactly as written in the source: when the
counter is zero it `debug_assert!`s that both sub-allocators are unused (a
failing debug assertion is a fault) and returns `true`; otherwise it returns
`false`. -/
def CombinedAllocator.isUsed (c : CombinedAllocator) : Outcome Bool :=
  if c.allocations = 0 then
    if !c.arenas.isUsed && !c.chunks.isUsed then .ok true else .fault
  else .ok false

/-- `CombinedAllocator::dispose`: return `Err(self)` while `is_used()`, else
dispose the Arena, the Chunked pool and the Root in that order, `.unwrap()`ing
each result. -/
def CombinedAllocator.dispose (c : CombinedAllocator) : Disposal CombinedAllocator :=
  match c.isUsed with
  | .ok true => .kept c
  | .ok false =>
    match ArenaAllocator.dispose RootAllocator.free c.arenas c.root with
    | (.ok, root1) =>
      match ChunkedAllocator.dispose RootAllocator.free c.chunks root1 with
      | (.ok, root2) =>
        match RootAllocator.dispose root2 with
        | .ok => .ok
        | .kept _ => .fault
        | .fault => .fault
      | (.kept _, _) => .fault
      | (.fault, _) => .fault
    | (.kept _, _) => .fault
    | (.fault, _) => .fault
  | .err _ => .fault
  | .fault => .fault

/-- A device memory type as seen by the Smart selector (gfx_hal `MemoryType`,
restricted to the two fields the selector reads): property flags as a bitmask
and the index of the heap it draws from. -/
structure MemoryType where
  properties : Nat
  heapIndex : Nat
deriving DecidableEq

/-- Per-heap capacity counter (src/smart.rs, `Heap`). -/
structure Heap where
  size : Nat
  used : Nat
deriving DecidableEq

/-- `Heap::available`. -/
def Heap.available (h : Heap) : Nat := h.size - h.used

/-- `Heap::alloc`: charge `size` bytes against the heap. -/
def Heap.alloc (h : Heap) (size : Nat) : Heap := { h with used := h.used + size }

/-- `Heap::free`: release `size` bytes. -/
def Heap.freeBytes (h : Heap) (size : Nat) : Heap := { h with used := h.used - size }

/-- The Smart selector (src/smart.rs, `SmartAllocator`): one Combined
dispatcher per memory type plus per-heap counters. -/
structure SmartAllocator where
  allocators : List (MemoryType × CombinedAllocator)
  heaps : List Heap
deriving DecidableEq

/-- `SmartAllocator::new` from the device's memory-type/heap table. -/
def SmartAllocator.new (memoryTypes : List MemoryType) (memoryHeaps : List Nat)
    (arenaSize chunksPerBlock minChunkSize maxChunkSize : Nat) : SmartAllocator :=
  ⟨memoryTypes.enum.map fun p =>
      (p.2, CombinedAllocator.new p.1 arenaSize chunksPerBlock minChunkSize maxChunkSize),
    memoryHeaps.map fun s => ⟨s, 0⟩⟩

/-- The first filter of `SmartAllocator::alloc` on memory type `i`:
`((1 << index) & reqs.type_mask) == (1 << index) && memory_type.properties.contains(prop)`. -/
def compatAt (typeMask prop i : Nat) (mt : MemoryType) : Bool :=
  (2 ^ i &&& typeMask == 2 ^ i) && (mt.properties &&& prop == prop)

/-- The lazy `filter/filter/next` scan of `SmartAllocator::alloc`: walk the
memory types in ascending index order; a type passing the mask/property filter
is counted and then admitted only if its heap has `reqs.size + reqs.alignment`
bytes available; the first admitted index is selected. With no survivor the
error is `NoCompatibleMemoryType` when the count is zero and `OutOfMemory`
otherwise. An out-of-range heap index is an indexing panic. -/
def smartSelect (heaps : List Heap) (typeMask prop need : Nat) :
    List (MemoryType × CombinedAllocator) → Nat → Nat → Outcome Nat
  | [], _, count =>
    .err (if count = 0 then .NoCompatibleMemoryType else .OutOfMemory)
  | (mt, _) :: rest, i, count =>
    if compatAt typeMask prop i mt then
      match heaps[mt.heapIndex]? with
      | none => .fault
      | some h =>
        if need ≤ h.available then .ok i
        else smartSelect heaps typeMask prop need rest (i + 1) (count + 1)
    else smartSelect heaps typeMask prop need rest (i + 1) count

/-- `SmartAllocator::alloc`: select a memory type, delegate to its Combined
dispatcher, charge the granted block's size to the type's heap and tag the
block with the memory-type index. -/
def SmartAllocator.alloc (s : SmartAllocator) (request : RequestType) (prop : Nat)
    (reqs : Requirements) : Outcome (CombinedBlock × Nat) × SmartAllocator :=
  match smartSelect s.heaps reqs.typeMask prop (reqs.size + reqs.alignment)
      s.allocators 0 0 with
  | .ok index =>
    match s.allocators[index]? with
    | none => (.fault, s)
    | some (mt, ca) =>
      match CombinedAllocator.alloc ca request reqs with
      | (out, ca1) =>
        let s1 := { s with allocators := s.allocators.set index (mt, ca1) }
        match out with
        | .ok blk =>
          match s1.heaps[mt.heapIndex]? with
          | none => (.fault, s1)
          | some h =>
            (.ok (blk, index),
              { s1 with heaps := s1.heaps.set mt.heapIndex (h.alloc blk.size) })
        | .err e => (.err e, s1)
        | .fault => (.fault, s1)
  | .err e => (.err e, s)
  | .fault => (.fault, s)

/-- `SmartAllocator::free`: un-wrap the memory-type index, release the block's
size from the corresponding heap and delegate the free to that dispatcher. -/
def SmartAllocator.freeBlock (s : SmartAllocator) (b : CombinedBlock × Nat) :
    Outcome Unit × SmartAllocator :=
  match s.allocators[b.2]? with
  | none => (.fault, s)
  | some (mt, ca) =>
    match s.heaps[mt.heapIndex]? with
    | none => (.fault, s)
    | some h =>
      let s1 := { s with heaps := s.heaps.set mt.heapIndex (h.freeBytes b.1.size) }
      match CombinedAllocator.freeBlock ca b.1 with
      | (out, ca1) => (out, { s1 with allocators := s1.allocators.set b.2 (mt, ca1) })

/-- Number of memory types in the (suffix of the) type list, indexed from `i`,
that pass the mask/property compatibility filter: the value the source
accumulates in `compatible_count` when every examined candidate fails the
capacity filter. -/
def countCompatFrom (typeMask prop : Nat) :
    List (MemoryType × CombinedAllocator) → Nat → Nat
  | [], _ => 0
  | (mt, _) :: rest, i =>
    (if compatAt typeMask prop i mt then 1 else 0) + countCompatFrom typeMask prop rest (i + 1)

/-- Every mask/property-compatible memory type in the (suffix of the) type
list, indexed from `i`, has a heap with fewer than `need` bytes available. -/
def blockedFrom (heaps : List Heap) (typeMask prop need : Nat) :
    List (MemoryType × CombinedAllocator) → Nat → Bool
  | [], _ => true
  | (mt, _) :: rest, i =>
    (!compatAt typeMask prop i mt ||
      match heaps[mt.heapIndex]? with
      | some h => decide (h.available < need)
      | none => false) && blockedFrom heaps typeMask prop need rest (i + 1)

/-- Abstract outstanding-chunk count of a Chunked node: the conservation
invariant of spec §3, `outstanding + free_list_length = chunks_per_superblock *
superblock_count`. -/
def nodeInv (n : ChunkedNode) (outstanding : Nat) : Prop :=
  outstanding + n.free.length = n.blocks.length * n.chunksPerBlock

/-- Every superblock base offset stored in the node is a multiple of the
node's chunk size (established by `grow` for power-of-two chunk sizes). -/
def nodeWF (n : ChunkedNode) : Prop :=
  ∀ p ∈ n.blocks, p.2 % n.chunkSize = 0

/-- Structural well-formedness of a Chunked pool state: the node at index `i`
has chunk size `min_chunk_size * 2^i` and aligned superblock bases. -/
def chunkedWF (a : ChunkedAllocator) : Prop :=
  ∀ i node, a.nodes[i]? = some node →
    node.chunkSize = a.minChunkSize * 2 ^ i ∧ nodeWF node

/-- A fresh Combined dispatcher used in the concrete scenarios. -/
def combinedFresh : CombinedAllocator := CombinedAllocator.new 0 1024 4 256 4096

/-- The state of `combinedFresh` after one successful `General` allocation of
200 bytes at alignment 64. -/
def combinedAfterOne : CombinedAllocator :=
  (CombinedAllocator.alloc combinedFresh .General ⟨200, 64, 1⟩).2

/-- An owner that always reports `OutOfMemory` (a failing device). -/
def failingOwner : OwnerAlloc Unit := fun _ _ => (.err .OutOfMemory, ())

/-- Smart scenario for the heap-overcommit counterexample: one memory type on
a heap of 1500 bytes, chunked tier with chunk sizes 256..4096, one chunk per
superblock. -/
def smartOvercommit : SmartAllocator :=
  ⟨[(⟨0, 0⟩, CombinedAllocator.new 0 1024 1 256 4096)], [⟨1500, 0⟩]⟩

/-- The request of the heap-overcommit counterexample: 1025 bytes at alignment
1 (reservation 1026, granted chunk 2048). -/
def reqsOvercommit : Requirements := ⟨1025, 1, 1⟩

/-- Smart scenario whose single memory type is masked out by the request. -/
def smartNoType : SmartAllocator :=
  ⟨[(⟨0, 0⟩, CombinedAllocator.new 0 64 1 16 64)], [⟨100, 0⟩]⟩

/-- Smart scenario whose single (compatible) memory type sits on a heap with
only 5 bytes available. -/
def smartNoRoom : SmartAllocator :=
  ⟨[(⟨0, 0⟩, CombinedAllocator.new 0 64 1 16 64)], [⟨5, 0⟩]⟩

/-- A Chunked node holding one 1024-byte superblock at base 0, chunk size 256,
with chunk 1 free and chunks 0, 2, 3 outstanding; used in the LIFO scenario. -/
def lifoNode : ChunkedNode := ⟨0, 4, 256, [(0, 1)], [(⟨0, 0, 1024⟩, 0)]⟩

/-- C1: the claim says `is_used()` is true iff the live-allocation counter is
positive; the code returns the opposite. On the fresh dispatcher (counter 0,
both sub-allocators unused, so the debug assertion passes) `is_used()` returns
`true`, and after one successful allocation (counter 1) it returns `false`. -/
theorem combined_is_used_inverted :
    combinedFresh.allocations = 0 ∧
    CombinedAllocator.isUsed combinedFresh = .ok true ∧
    combinedAfterOne.allocations = 1 ∧
    CombinedAllocator.isUsed combinedAfterOne = .ok false := by
  decide

/-- C2: the claim says every request with `0 < size <= max_chunk_size` is
served without fault. In the code `alloc` calls `grow(index + 1)` whose
assertion `chunk_size(size) <= max_chunk_size` fails for the top size class:
with `min_chunk_size = 256`, `max_chunk_size = 4096` a request of 4096 bytes
faults, and with `min_chunk_size = max_chunk_size = 256` even a 1-byte request
faults. The oversized branch (`size > max_chunk_size` gives `OutOfMemory`) and
a below-top-class success are also evaluated. -/
theorem chunked_alloc_top_class_fault :
    (ChunkedAllocator.alloc RootAllocator.alloc (ChunkedAllocator.new 1 256 4096 0)
        (RootAllocator.new 0) ⟨4096, 0, 1⟩).1 = .fault ∧
    (0 < 4096 ∧ 4096 ≤ (ChunkedAllocator.new 1 256 4096 0).maxChunkSize) ∧
    (ChunkedAllocator.alloc RootAllocator.alloc (ChunkedAllocator.new 1 256 256 0)
        (RootAllocator.new 0) ⟨1, 0, 1⟩).1 = .fault ∧
    (ChunkedAllocator.alloc RootAllocator.alloc (ChunkedAllocator.new 1 256 4096 0)
        (RootAllocator.new 0) ⟨5000, 0, 1⟩).1 = .err .OutOfMemory ∧
    (ChunkedAllocator.alloc RootAllocator.alloc (ChunkedAllocator.new 1 256 4096 0)
        (RootAllocator.new 0) ⟨2048, 0, 1⟩).1 =
      .ok (⟨0, 0, 2048⟩, 0) := by
  decide

/-- C4: the claim says `dispose` fails (returning `self`) exactly while the
counter is non-zero. Because `is_used()` is inverted, the code hands the fresh
dispatcher (counter 0) back as `Err(self)`, and on a dispatcher with one
outstanding block (counter 1) it proceeds to dispose the sub-allocators and
panics on the busy Chunked pool's `.unwrap()`. -/
theorem combined_dispose_inverted :
    CombinedAllocator.dispose combinedFresh = .kept combinedFresh ∧
    combinedFresh.allocations = 0 ∧
    CombinedAllocator.dispose combinedAfterOne = .fault ∧
    combinedAfterOne.allocations = 1 := by
  decide

/-- C9: when the owner's allocation inside `ChunkedNode::grow` fails, the same
error comes back immediately and the node — its free deque and superblock list
included — is returned unchanged; only a successful owner call mutates it. -/
theorem chunked_grow_error_propagation {σ : Type} (oa : OwnerAlloc σ)
    (n : ChunkedNode) (owner owner1 : σ) (e : MemoryError)
    (h : oa owner ⟨n.chunkSize * n.chunksPerBlock, n.chunkSize, 2 ^ n.id⟩ =
      (.err e, owner1)) :
    ChunkedNode.grow oa n owner = (.err e, n, owner1) := by
  simp only [ChunkedNode.grow, h]

/-- Witness for C9 at a concrete failing owner. -/
theorem chunked_grow_error_propagation_witness :
    ChunkedNode.grow failingOwner (ChunkedNode.new 256 4 0) () =
      (.err .OutOfMemory, ChunkedNode.new 256 4 0, ()) :=
  chunked_grow_error_propagation failingOwner (ChunkedNode.new 256 4 0) () ()
    .OutOfMemory rfl

/-- C10: a `General` request of size 0 routed to the Chunked pool (which
happens whenever `0 <= max_chunk_size`, i.e. always) is never rejected with a
`MemoryError`: `pick_node`'s `assert!(size != 0)` makes the call panic, so
requests reaching the Chunked pool carry an unstated `size >= 1` precondition. -/
theorem chunked_zero_size_fault (c : CombinedAllocator) (reqs : Requirements)
    (h : reqs.size = 0) :
    (CombinedAllocator.alloc c .General reqs).1 = .fault := by
  simp [CombinedAllocator.alloc, ChunkedAllocator.alloc, ChunkedAllocator.pickNode, h]

/-- Witness for C10 on the fresh dispatcher. -/
theorem chunked_zero_size_fault_witness :
    (CombinedAllocator.alloc combinedFresh .General ⟨0, 0, 1⟩).1 = .fault :=
  chunked_zero_size_fault combinedFresh ⟨0, 0, 1⟩ rfl

/-- C8: LIFO reuse on a Chunked node. Freeing a previously issued chunk (a
block of exactly one chunk at offset `base + ci * chunk_size` inside the
superblock recorded at its tag) pushes its pair to the front of the free
deque, and an immediate allocation from the same node (no growth happens
because the deque is non-empty) pops that front entry and returns exactly the
freed chunk with the same tag, leaving the node as before the free. -/
theorem chunked_lifo_reuse {σ : Type} (oa : OwnerAlloc σ) (n : ChunkedNode)
    (owner : σ) (reqs : Requirements) (b : RawBlock) (bi ci : Nat)
    (sb : RawBlock) (base : Nat)
    (hcs : 0 < n.chunkSize)
    (hget : n.blocks[bi]? = some (sb, base))
    (hbase : base % n.chunkSize = 0)
    (hmem : b.memory = sb.memory)
    (hstart : b.start = base + ci * n.chunkSize)
    (hstop : b.stop = b.start + n.chunkSize)
    (hmask : 2 ^ n.id &&& reqs.typeMask ≠ 0)
    (hsz : reqs.size ≤ n.chunkSize)
    (hal : reqs.alignment ≤ n.chunkSize) :
    ChunkedNode.freeBlock n b bi = (.ok (), { n with free := (bi, ci) :: n.free }) ∧
    ChunkedNode.alloc oa { n with free := (bi, ci) :: n.free } owner reqs =
      (.ok (b, bi), n, owner) := by
  obtain ⟨nid, ncpb, ncs, nfree, nblocks⟩ := n
  dsimp only at hcs hget hbase hstart hstop hmask hsz hal ⊢
  have hmod : b.start % ncs = 0 := by
    rw [hstart, Nat.add_mul_mod_self_right, hbase]
  have hsize : b.size = ncs := by
    rw [RawBlock.size, hstop, Nat.add_sub_cancel_left]
  have hnotlt : ¬ b.start < base := by
    rw [hstart]; omega
  have hci : (b.start - base) / ncs = ci := by
    rw [hstart, Nat.add_sub_cancel_left, Nat.mul_div_cancel ci hcs]
  have hb : (⟨sb.memory, base + ci * ncs, ncs + (base + ci * ncs)⟩ : RawBlock) = b := by
    obtain ⟨bm, bs, be⟩ := b
    dsimp only at hmem hstart hstop ⊢
    subst hmem hstart
    simp only [RawBlock.mk.injEq, true_and]
    omega
  constructor
  · simp [ChunkedNode.freeBlock, hcs.ne', hmod, hsize, hget, hnotlt, hci]
  · simp [ChunkedNode.alloc, ChunkedNode.allocNoGrow, hmask, hget, hb,
      Nat.not_lt.mpr hsz, Nat.not_lt.mpr hal]

/-- Witness for C8: free chunk 2 (`[512, 768)`) of `lifoNode` and allocate it
right back. -/
theorem chunked_lifo_reuse_witness :
    ChunkedNode.freeBlock lifoNode ⟨0, 512, 768⟩ 0 =
      (.ok (), { lifoNode with free := (0, 2) :: lifoNode.free }) ∧
    ChunkedNode.alloc RootAllocator.alloc { lifoNode with free := (0, 2) :: lifoNode.free }
        (RootAllocator.new 0) ⟨200, 64, 1⟩ =
      (.ok (⟨0, 512, 768⟩, 0), lifoNode, RootAllocator.new 0) :=
  chunked_lifo_reuse RootAllocator.alloc lifoNode (RootAllocator.new 0) ⟨200, 64, 1⟩
    ⟨0, 512, 768⟩ 0 2 ⟨0, 0, 1024⟩ 0 (by decide) (by decide) (by decide) rfl
    (by decide) (by decide) (by decide) (by decide) (by decide)

/-- Shape of a successful `grow`: the node gained `chunks_per_block` free
entries tagged with the new superblock's index (in ascending chunk order) and
one superblock at its alignment-adjusted offset; nothing else changed. -/
theorem grow_ok_shape {σ : Type} {oa : OwnerAlloc σ} {n n1 : ChunkedNode}
    {owner owner1 : σ} {u : Unit}
    (h : ChunkedNode.grow oa n owner = (.ok u, n1, owner1)) :
    ∃ block, n1 = { n with
      free := n.free ++ (List.range n.chunksPerBlock).map fun i => (n.blocks.length, i)
      blocks := n.blocks ++ [(block, shiftForAlignment n.chunkSize block.start)] } := by
  simp only [ChunkedNode.grow] at h
  split at h
  next block ow hob =>
    split at h
    · simp at h
    · split at h
      · simp at h
      · split at h
        · simp only [Prod.mk.injEq] at h
          exact ⟨block, h.2.1.symm⟩
        · simp at h
  next e0 ow hob => simp at h
  next ow hob => simp at h

/-- Shape of a failed `grow`: the error comes straight from the owner and the
node is unchanged. -/
theorem grow_err_eq {σ : Type} {oa : OwnerAlloc σ} {n n1 : ChunkedNode}
    {owner owner1 : σ} {e : MemoryError}
    (h : ChunkedNode.grow oa n owner = (.err e, n1, owner1)) : n1 = n := by
  simp only [ChunkedNode.grow] at h
  split at h
  next block ow hob =>
    split at h
    · simp at h
    · split at h
      · simp at h
      · split at h
        · simp at h
        · simp at h
  next e0 ow hob => simp only [Prod.mk.injEq] at h; exact h.2.1.symm
  next ow hob => simp at h

/-- Shape of a successful `alloc_no_grow`: the front free entry was popped and
turned into the block of its chunk. -/
theorem allocNoGrow_ok_shape {n : ChunkedNode} {bt : RawBlock × Nat} {n1 : ChunkedNode}
    (h : n.allocNoGrow = .ok (some (bt, n1))) :
    ∃ bi ci rest sb base,
      n.free = (bi, ci) :: rest ∧
      n.blocks[bi]? = some (sb, base) ∧
      bt = (⟨sb.memory, base + ci * n.chunkSize,
        n.chunkSize + (base + ci * n.chunkSize)⟩, bi) ∧
      n1 = { n with free := rest } := by
  simp only [ChunkedNode.allocNoGrow] at h
  split at h
  · simp at h
  next bi ci rest hf =>
    split at h
    next hg => simp at h
    next sb base hg =>
      simp only [Outcome.ok.injEq, Option.some.injEq, Prod.mk.injEq] at h
      exact ⟨bi, ci, rest, sb, base, hf, hg, h.1.symm, h.2.symm⟩

/-- Case analysis of a successful node `alloc`: the preconditions held and the
block came from popping the free deque either directly or right after one
successful `grow`. -/
theorem alloc_ok_shape {σ : Type} {oa : OwnerAlloc σ} {n : ChunkedNode} {owner : σ}
    {reqs : Requirements} {bt : RawBlock × Nat} {n1 : ChunkedNode} {owner1 : σ}
    (h : ChunkedNode.alloc oa n owner reqs = (.ok bt, n1, owner1)) :
    reqs.size ≤ n.chunkSize ∧ reqs.alignment ≤ n.chunkSize ∧
    ((n.allocNoGrow = .ok (some (bt, n1)) ∧ owner1 = owner) ∨
      (∃ n2, ChunkedNode.grow oa n owner = (.ok (), n2, owner1) ∧
        n2.allocNoGrow = .ok (some (bt, n1)))) := by
  simp only [ChunkedNode.alloc] at h
  split at h
  · simp at h
  next hmask =>
    split at h
    next hsz => simp at h
    next hsz =>
      split at h
      next hal => simp at h
      next hal =>
        refine ⟨Nat.not_lt.mp hsz, Nat.not_lt.mp hal, ?_⟩
        split at h
        next bt' n1' hng =>
          simp only [Prod.mk.injEq, Outcome.ok.injEq] at h
          obtain ⟨h1, h2, h3⟩ := h
          subst h1 h2 h3
          exact .inl ⟨hng, rfl⟩
        next hng =>
          split at h
          next u n2 ow2 hgrow =>
            split at h
            next bt' n1' hng2 =>
              simp only [Prod.mk.injEq, Outcome.ok.injEq] at h
              obtain ⟨h1, h2, h3⟩ := h
              subst h1 h2 h3
              exact .inr ⟨n2, by rw [hgrow], hng2⟩
            next => simp at h
            next => simp at h
            next => simp at h
          next e n2 ow2 hgrow => simp at h
          next n2 ow2 hgrow => simp at h
        next hng => simp at h
        next hng => simp at h

/-- A node `alloc` that reports a `MemoryError` leaves the node unchanged. -/
theorem alloc_err_eq {σ : Type} {oa : OwnerAlloc σ} {n : ChunkedNode} {owner : σ}
    {reqs : Requirements} {e : MemoryError} {n1 : ChunkedNode} {owner1 : σ}
    (h : ChunkedNode.alloc oa n owner reqs = (.err e, n1, owner1)) : n1 = n := by
  simp only [ChunkedNode.alloc] at h
  split at h
  · simp only [Prod.mk.injEq] at h; exact h.2.1.symm
  · split at h
    · simp at h
    · split at h
      · simp at h
      · split at h
        · simp at h
        · split at h
          · split at h
            · simp at h
            · simp at h
            · simp at h
            · simp at h
          next e2 n2 ow2 hgrow =>
            simp only [Prod.mk.injEq, Outcome.err.injEq] at h
            rw [← h.2.1]
            exact grow_err_eq hgrow
          · simp at h
        · simp at h
        · simp at h

/-- A successful node `free` pushes one pair to the front of the free deque
and changes nothing else. -/
theorem freeBlock_ok_shape {n : ChunkedNode} {b : RawBlock} {tag : Nat}
    {n1 : ChunkedNode} (h : ChunkedNode.freeBlock n b tag = (.ok (), n1)) :
    ∃ ci, n1 = { n with free := (tag, ci) :: n.free } := by
  simp only [ChunkedNode.freeBlock] at h
  split at h
  · simp at h
  · split at h
    · simp at h
    · split at h
      · simp at h
      · split at h
        · simp at h
        next sb base hg =>
          split at h
          · simp at h
          · simp only [Prod.mk.injEq] at h
            exact ⟨(b.start - base) / n.chunkSize, h.2.symm⟩

/-- C6: conservation on a Chunked node. With `outstanding` the number of
issued-and-not-freed chunks, `outstanding + free_list_length =
chunks_per_superblock * superblock_count` holds after every alloc (the count
going up by one) and every free (the count going down by one), a failed alloc
leaves the node unchanged, and under the invariant `is_unused()` is true
exactly when no chunk is outstanding. -/
theorem chunked_node_conservation {σ : Type} (oa : OwnerAlloc σ) (n : ChunkedNode)
    (owner : σ) (reqs : Requirements) (out : Nat) (b : RawBlock) (tag : Nat) :
    (nodeInv n out → ∀ bt n1 owner1,
        ChunkedNode.alloc oa n owner reqs = (.ok bt, n1, owner1) →
        nodeInv n1 (out + 1)) ∧
    (∀ e n1 owner1,
        ChunkedNode.alloc oa n owner reqs = (.err e, n1, owner1) → n1 = n) ∧
    (nodeInv n out → 1 ≤ out → ∀ n1,
        ChunkedNode.freeBlock n b tag = (.ok (), n1) → nodeInv n1 (out - 1)) ∧
    (nodeInv n out → (ChunkedNode.isUnused n = true ↔ out = 0)) := by
  refine ⟨?_, ?_, ?_, ?_⟩
  · intro hinv bt n1 owner1 h
    obtain ⟨-, -, hcase⟩ := alloc_ok_shape h
    rcases hcase with ⟨hng, -⟩ | ⟨n2, hgrow, hng⟩
    · obtain ⟨bi, ci, rest, sb, base, hf, -, -, hn1⟩ := allocNoGrow_ok_shape hng
      subst hn1
      simp only [nodeInv] at hinv ⊢
      rw [hf] at hinv
      simp only [List.length_cons] at hinv
      generalize n.blocks.length * n.chunksPerBlock = T at hinv ⊢
      omega
    · obtain ⟨block, hn2⟩ := grow_ok_shape hgrow
      obtain ⟨bi, ci, rest, sb, base, hf, -, -, hn1⟩ := allocNoGrow_ok_shape hng
      subst hn2
      subst hn1
      try dsimp only at hf
      have hlen := congrArg List.length hf
      simp only [List.length_append, List.length_map, List.length_range,
        List.length_cons] at hlen
      simp only [nodeInv] at hinv ⊢
      try dsimp only
      simp only [List.length_append, List.length_cons, List.length_nil]
      have hexp : (n.blocks.length + (0 + 1)) * n.chunksPerBlock =
          n.blocks.length * n.chunksPerBlock + n.chunksPerBlock := by ring
      rw [hexp]
      generalize n.blocks.length * n.chunksPerBlock = T at hinv ⊢
      omega
  · intro e n1 owner1 h
    exact alloc_err_eq h
  · intro hinv hout n1 h
    obtain ⟨ci, hn1⟩ := freeBlock_ok_shape h
    subst hn1
    simp only [nodeInv] at hinv ⊢
    simp only [List.length_cons]
    generalize n.blocks.length * n.chunksPerBlock = T at hinv ⊢
    omega
  · intro hinv
    simp only [nodeInv] at hinv
    simp only [ChunkedNode.isUnused, ChunkedNode.count, beq_iff_eq]
    generalize n.blocks.length * n.chunksPerBlock = T at hinv ⊢
    omega

/-- Witness for C6: the invariant after the first successful allocation from a
fresh node (one superblock of four 256-byte chunks, one outstanding chunk),
obtained through the conservation theorem. -/
theorem chunked_node_conservation_witness :
    nodeInv ⟨0, 4, 256, [(0, 1), (0, 2), (0, 3)], [(⟨0, 0, 1024⟩, 0)]⟩ (0 + 1) :=
  (chunked_node_conservation RootAllocator.alloc (ChunkedNode.new 256 4 0)
      (RootAllocator.new 0) ⟨200, 64, 1⟩ 0 ⟨0, 0, 256⟩ 0).1
    rfl (⟨0, 0, 256⟩, 0)
    ⟨0, 4, 256, [(0, 1), (0, 2), (0, 3)], [(⟨0, 0, 1024⟩, 0)]⟩ ⟨0, 1, 1⟩ (by decide)

/-- With no compatible memory type in the list, the capacity condition of
`blockedFrom` holds vacuously. -/
theorem blockedFrom_of_no_compat (heaps : List Heap) (typeMask prop need : Nat) :
    ∀ (l : List (MemoryType × CombinedAllocator)) (i : Nat),
      countCompatFrom typeMask prop l i = 0 →
      blockedFrom heaps typeMask prop need l i = true := by
  intro l
  induction l with
  | nil => intro i _; rfl
  | cons p rest ih =>
    obtain ⟨mt, ca⟩ := p
    intro i h
    simp only [countCompatFrom] at h
    simp only [blockedFrom]
    rcases Bool.eq_false_or_eq_true (compatAt typeMask prop i mt) with hc | hc
    · rw [hc] at h
      simp at h
    · simp only [hc] at h ⊢
      simp only [Bool.false_eq_true, if_false, Nat.zero_add] at h
      simp only [Bool.not_false, Bool.true_or, Bool.true_and]
      exact ih (i + 1) h

/-- The scan of `SmartAllocator::alloc` on a list whose compatible types all
fail the capacity filter ends with `NoCompatibleMemoryType` when no type was
compatible (`count` stays zero) and `OutOfMemory` otherwise. -/
theorem smartSelect_blocked (heaps : List Heap) (typeMask prop need : Nat) :
    ∀ (l : List (MemoryType × CombinedAllocator)) (i count : Nat),
      blockedFrom heaps typeMask prop need l i = true →
      smartSelect heaps typeMask prop need l i count =
        .err (if count + countCompatFrom typeMask prop l i = 0
          then .NoCompatibleMemoryType else .OutOfMemory) := by
  intro l
  induction l with
  | nil =>
    intro i count _
    simp [smartSelect, countCompatFrom]
  | cons p rest ih =>
    obtain ⟨mt, ca⟩ := p
    intro i count hb
    simp only [blockedFrom] at hb
    simp only [smartSelect, countCompatFrom]
    rcases Bool.eq_false_or_eq_true (compatAt typeMask prop i mt) with hc | hc
    · simp only [hc] at hb ⊢
      simp only [Bool.not_true, Bool.false_or, Bool.and_eq_true] at hb
      obtain ⟨hcap, hrest⟩ := hb
      simp only [eq_self_iff_true, if_true]
      cases hg : heaps[mt.heapIndex]? with
      | none => rw [hg] at hcap; simp at hcap
      | some h =>
        simp only [hg] at hcap ⊢
        simp only [decide_eq_true_eq] at hcap
        rw [if_neg (Nat.not_le.mpr hcap)]
        rw [ih (i + 1) (count + 1) hrest]
        rw [if_neg (by omega), if_neg (by omega)]
    · simp only [hc] at hb ⊢
      simp only [Bool.not_false, Bool.true_or, Bool.true_and] at hb
      simp only [Bool.false_eq_true, if_false, Nat.zero_add]
      exact ih (i + 1) count hb

/-- C3: error discrimination of the Smart selector. When no memory type passes
the mask/property filter at all, `alloc` fails with `NoCompatibleMemoryType`
and leaves the selector unchanged; when at least one type passes that filter
but every one of them sits on a heap with fewer than `size + alignment` bytes
available, `alloc` fails with `OutOfMemory`, never `NoCompatibleMemoryType`. -/
theorem smart_alloc_error_distinction (s : SmartAllocator) (request : RequestType)
    (prop : Nat) (reqs : Requirements) :
    (countCompatFrom reqs.typeMask prop s.allocators 0 = 0 →
      SmartAllocator.alloc s request prop reqs = (.err .NoCompatibleMemoryType, s)) ∧
    (countCompatFrom reqs.typeMask prop s.allocators 0 ≠ 0 →
      blockedFrom s.heaps reqs.typeMask prop (reqs.size + reqs.alignment)
        s.allocators 0 = true →
      SmartAllocator.alloc s request prop reqs = (.err .OutOfMemory, s)) := by
  constructor
  · intro h0
    have hb := blockedFrom_of_no_compat s.heaps reqs.typeMask prop
      (reqs.size + reqs.alignment) s.allocators 0 h0
    have hs := smartSelect_blocked s.heaps reqs.typeMask prop
      (reqs.size + reqs.alignment) s.allocators 0 0 hb
    rw [h0, if_pos (by omega)] at hs
    simp only [SmartAllocator.alloc, hs]
  · intro hne hb
    have hs := smartSelect_blocked s.heaps reqs.typeMask prop
      (reqs.size + reqs.alignment) s.allocators 0 0 hb
    rw [if_neg (by omega)] at hs
    simp only [SmartAllocator.alloc, hs]

/-- Witness for C3: a request whose mask matches no type fails with
`NoCompatibleMemoryType`; a compatible type over a 5-byte heap makes a 10-byte
request fail with `OutOfMemory`. -/
theorem smart_alloc_error_distinction_witness :
    SmartAllocator.alloc smartNoType .General 0 ⟨10, 0, 0⟩ =
      (.err .NoCompatibleMemoryType, smartNoType) ∧
    SmartAllocator.alloc smartNoRoom .General 0 ⟨10, 0, 1⟩ =
      (.err .OutOfMemory, smartNoRoom) :=
  ⟨(smart_alloc_error_distinction smartNoType .General 0 ⟨10, 0, 0⟩).1 (by decide),
    (smart_alloc_error_distinction smartNoRoom .General 0 ⟨10, 0, 1⟩).2
      (by decide) (by decide)⟩

/-- C5 counterexample: under perfectly correct usage a single successful
allocation drives a heap's `used` above its `size`. The capacity filter
reserves `size + alignment = 1026` bytes against the 1500-byte heap, but the
Chunked tier rounds the 1025-byte request up to a 2048-byte chunk and the heap
is charged those 2048 bytes: `used = 2048 > 1500 = size`. -/
theorem smart_heap_overcommit_cex :
    (SmartAllocator.alloc smartOvercommit .General 0 reqsOvercommit).1.isOk = true ∧
    (SmartAllocator.alloc smartOvercommit .General 0 reqsOvercommit).2.heaps =
      [⟨1500, 2048⟩] ∧
    (1500 : Nat) < 2048 := by
  decide

/-- A selected memory type really had `need` bytes available on its heap: the
scan admits index `idx` only after the capacity test passed there. -/
theorem smartSelect_ok_capacity (heaps : List Heap) (typeMask prop need : Nat) :
    ∀ (l : List (MemoryType × CombinedAllocator)) (i count idx : Nat),
      smartSelect heaps typeMask prop need l i count = .ok idx →
      i ≤ idx ∧ ∃ mt ca h, l[idx - i]? = some (mt, ca) ∧
        heaps[mt.heapIndex]? = some h ∧ need ≤ h.available := by
  intro l
  induction l with
  | nil => intro i count idx h; simp [smartSelect] at h
  | cons p rest ih =>
    obtain ⟨mt, ca⟩ := p
    intro i count idx h
    simp only [smartSelect] at h
    rcases Bool.eq_false_or_eq_true (compatAt typeMask prop i mt) with hc | hc
    · simp only [hc, eq_self_iff_true, if_true] at h
      cases hg : heaps[mt.heapIndex]? with
      | none => rw [hg] at h; simp at h
      | some hp =>
        simp only [hg] at h
        by_cases hcap : need ≤ hp.available
        · rw [if_pos hcap] at h
          simp only [Outcome.ok.injEq] at h
          subst h
          exact ⟨Nat.le_refl i, mt, ca, hp, by simp, hg, hcap⟩
        · rw [if_neg hcap] at h
          obtain ⟨hle, mt2, ca2, hp2, hget, hg2, hcap2⟩ := ih (i + 1) (count + 1) idx h
          refine ⟨by omega, mt2, ca2, hp2, ?_, hg2, hcap2⟩
          have hidx : idx - i = (idx - (i + 1)) + 1 := by omega
          rw [hidx, List.getElem?_cons_succ]
          exact hget
    · simp only [hc, Bool.false_eq_true, if_false] at h
      obtain ⟨hle, mt2, ca2, hp2, hget, hg2, hcap2⟩ := ih (i + 1) count idx h
      refine ⟨by omega, mt2, ca2, hp2, ?_, hg2, hcap2⟩
      have hidx : idx - i = (idx - (i + 1)) + 1 := by omega
      rw [hidx, List.getElem?_cons_succ]
      exact hget

/-- C5 amended: the capacity filter admits a memory type only when its heap
has at least `reqs.size + reqs.alignment` bytes available, but the heap is
then charged the granted block's size — for the Chunked tier the whole
size-class chunk — which may exceed that reservation, so `used` can exceed
`size` (see the counterexample). -/
theorem smart_alloc_capacity_reservation (s : SmartAllocator)
    (request : RequestType) (prop : Nat) (reqs : Requirements)
    (blk : CombinedBlock) (idx : Nat) (s1 : SmartAllocator)
    (hok : SmartAllocator.alloc s request prop reqs = (.ok (blk, idx), s1)) :
    ∃ mt ca h, s.allocators[idx]? = some (mt, ca) ∧
      s.heaps[mt.heapIndex]? = some h ∧
      reqs.size + reqs.alignment ≤ h.available ∧
      s1.heaps = s.heaps.set mt.heapIndex { h with used := h.used + blk.size } := by
  simp only [SmartAllocator.alloc] at hok
  split at hok
  next index hsel =>
    obtain ⟨hle, mt0, ca0, h0, hget0, hheap0, hcap0⟩ :=
      smartSelect_ok_capacity s.heaps reqs.typeMask prop (reqs.size + reqs.alignment)
        s.allocators 0 0 index hsel
    rw [Nat.sub_zero] at hget0
    split at hok
    · simp at hok
    next mt ca hget =>
      split at hok
      next blk0 hout =>
        split at hok
        · simp at hok
        next hp hheap =>
          simp only [Prod.mk.injEq, Outcome.ok.injEq] at hok
          obtain ⟨⟨hb, hi⟩, hs1⟩ := hok
          subst hb hi
          rw [hget] at hget0
          injection hget0 with hpair
          injection hpair with hmt hca
          subst hmt hca
          rw [hheap0] at hheap
          injection hheap with hh
          subst hh
          refine ⟨_, _, _, hget, hheap0, hcap0, ?_⟩
          rw [← hs1]
          rfl
      · simp at hok
      · simp at hok
  · simp at hok
  · simp at hok

/-- Witness for C5's amended theorem at the overcommit scenario. -/
theorem smart_alloc_capacity_reservation_witness :
    ∃ mt ca h, smartOvercommit.allocators[0]? = some (mt, ca) ∧
      smartOvercommit.heaps[mt.heapIndex]? = some h ∧
      reqsOvercommit.size + reqsOvercommit.alignment ≤ h.available ∧
      (SmartAllocator.alloc smartOvercommit .General 0 reqsOvercommit).2.heaps =
        smartOvercommit.heaps.set mt.heapIndex
          { h with used := h.used + CombinedBlock.size ⟨⟨0, 0, 2048⟩, .chunked 0⟩ } :=
  smart_alloc_capacity_reservation smartOvercommit .General 0 reqsOvercommit
    ⟨⟨0, 0, 2048⟩, .chunked 0⟩ 0
    (SmartAllocator.alloc smartOvercommit .General 0 reqsOvercommit).2 (by decide)

/-- Or-ing with the low-bit mask `2^k - 1` fills the `k` low bits. -/
theorem lor_two_pow_sub_one_mod (x k : Nat) :
    (x ||| (2 ^ k - 1)) % 2 ^ k = 2 ^ k - 1 := by
  apply Nat.eq_of_testBit_eq
  intro j
  rw [Nat.testBit_mod_two_pow, Nat.testBit_lor, Nat.testBit_two_pow_sub_one]
  by_cases hj : j < k
  · simp [hj]
  · simp [hj]

/-- `shift_for_alignment` with a power-of-two alignment returns a multiple of
that alignment (the `((offset-1) | (alignment-1)) + 1` trick). -/
theorem shiftForAlignment_two_pow_mod (k o : Nat) :
    shiftForAlignment (2 ^ k) o % 2 ^ k = 0 := by
  unfold shiftForAlignment
  by_cases ho : 0 < o
  · rw [if_pos ⟨ho, Nat.two_pow_pos k⟩]
    have h1 := lor_two_pow_sub_one_mod (o - 1) k
    have hp : 0 < 2 ^ k := Nat.two_pow_pos k
    have h2 := Nat.div_add_mod ((o - 1) ||| (2 ^ k - 1)) (2 ^ k)
    have hX : ((o - 1) ||| (2 ^ k - 1)) + 1 =
        2 ^ k + 2 ^ k * (((o - 1) ||| (2 ^ k - 1)) / 2 ^ k) := by omega
    rw [hX, Nat.add_mul_mod_self_left]
    exact Nat.mod_self (2 ^ k)
  · rw [if_neg fun hcon => ho hcon.1]
    have : o = 0 := by omega
    subst this
    simp

/-- Shape of a successful pool-level `grow`: the missing nodes up to the
requested index are appended, each of chunk size `min_chunk_size * 2^index`. -/
theorem pool_grow_ok_shape {a a1 : ChunkedAllocator} {size : Nat}
    (h : a.grow size = .ok a1) :
    a1 = { a with nodes := a.nodes ++
      (List.range' a.nodes.length (size + 1 - a.nodes.length)).map fun i =>
        ChunkedNode.new (a.minChunkSize * 2 ^ i) a.chunksPerBlock a.id } := by
  simp only [ChunkedAllocator.grow] at h
  split at h
  · simp at h
  · simp only [Outcome.ok.injEq] at h
    exact h.symm

/-- Pool-level `grow` preserves structural well-formedness. -/
theorem chunkedWF_grow {a a1 : ChunkedAllocator} {size : Nat}
    (hwf : chunkedWF a) (h : a.grow size = .ok a1) : chunkedWF a1 := by
  rw [pool_grow_ok_shape h]
  unfold chunkedWF at hwf ⊢
  intro i node hget
  dsimp only at hget ⊢
  by_cases hi : i < a.nodes.length
  · rw [List.getElem?_append_left hi] at hget
    exact hwf i node hget
  · rw [List.getElem?_append_right (Nat.not_lt.mp hi)] at hget
    rw [List.getElem?_map] at hget
    by_cases hlt : i - a.nodes.length < size + 1 - a.nodes.length
    · rw [List.getElem?_range' _ _ hlt] at hget
      simp only [Option.map_some'] at hget
      injection hget with hget
      subst hget
      constructor
      · have hexp : a.nodes.length + 1 * (i - a.nodes.length) = i := by omega
        show a.minChunkSize * 2 ^ (a.nodes.length + 1 * (i - a.nodes.length)) =
          a.minChunkSize * 2 ^ i
        rw [hexp]
      · intro p hp
        simp [ChunkedNode.new] at hp
    · rw [List.getElem?_eq_none (by simp; omega)] at hget
      simp at hget

/-- C7 node-level core: a block handed out by a node whose chunk size is a
power of two and whose superblock bases are chunk-aligned has exactly
`chunk_size` bytes (no less than the request) at a chunk-aligned offset. -/
theorem alloc_ok_block_shape {σ : Type} {oa : OwnerAlloc σ} {node : ChunkedNode}
    {owner : σ} {reqs : Requirements} {blk : RawBlock} {tag : Nat}
    {n1 : ChunkedNode} {owner1 : σ}
    (hk : ∃ k, node.chunkSize = 2 ^ k)
    (hwf : nodeWF node)
    (h : ChunkedNode.alloc oa node owner reqs = (.ok (blk, tag), n1, owner1)) :
    blk.size = node.chunkSize ∧ reqs.size ≤ node.chunkSize ∧
    blk.start % node.chunkSize = 0 := by
  obtain ⟨hsz, -, hcase⟩ := alloc_ok_shape h
  rcases hcase with ⟨hng, -⟩ | ⟨n2, hgrow, hng⟩
  · obtain ⟨bi, ci, rest, sb, base, hf, hg, hbt, -⟩ := allocNoGrow_ok_shape hng
    have hbase : base % node.chunkSize = 0 := hwf _ (List.getElem?_mem hg)
    have hblk : blk = ⟨sb.memory, base + ci * node.chunkSize,
        node.chunkSize + (base + ci * node.chunkSize)⟩ := congrArg Prod.fst hbt
    subst hblk
    refine ⟨?_, hsz, ?_⟩
    · simp [RawBlock.size]
    · simp [Nat.add_mul_mod_self_right, hbase]
  · obtain ⟨block, hn2⟩ := grow_ok_shape hgrow
    obtain ⟨bi, ci, rest, sb, base, hf, hg, hbt, -⟩ := allocNoGrow_ok_shape hng
    have hcseq : n2.chunkSize = node.chunkSize := by rw [hn2]
    have hwf2 : nodeWF n2 := by
      subst hn2
      unfold nodeWF
      intro p hp
      dsimp only at hp ⊢
      rcases List.mem_append.mp hp with hpold | hpnew
      · exact hwf p hpold
      · have hpeq : p = (block, shiftForAlignment node.chunkSize block.start) := by
          simpa using hpnew
        subst hpeq
        obtain ⟨k, hk⟩ := hk
        dsimp only
        rw [hk]
        exact shiftForAlignment_two_pow_mod k block.start
    have hbase : base % node.chunkSize = 0 := by
      have hb := hwf2 _ (List.getElem?_mem hg)
      rwa [hcseq] at hb
    have hblk : blk = ⟨sb.memory, base + ci * n2.chunkSize,
        n2.chunkSize + (base + ci * n2.chunkSize)⟩ := congrArg Prod.fst hbt
    rw [hcseq] at hblk
    subst hblk
    refine ⟨?_, hsz, ?_⟩
    · simp [RawBlock.size]
    · simp [Nat.add_mul_mod_self_right, hbase]

/-- C7: every block returned by the Chunked pool (well-formed state,
power-of-two `min_chunk_size`) has size exactly the chunk size
`min_chunk_size * 2^i` of the node `i = pick_node(reqs.size)` it came from,
that chunk size is at least the requested size, and the block's start offset
is a multiple of it. -/
theorem chunked_alloc_block_shape {σ : Type} (oa : OwnerAlloc σ)
    (a : ChunkedAllocator) (owner : σ) (reqs : Requirements) (blk : RawBlock)
    (tag : Nat) (a1 : ChunkedAllocator) (owner1 : σ)
    (hwf : chunkedWF a)
    (hpow : ∃ k, a.minChunkSize = 2 ^ k)
    (hok : ChunkedAllocator.alloc oa a owner reqs = (.ok (blk, tag), a1, owner1)) :
    ∃ i, a.pickNode reqs.size = .ok i ∧
      blk.size = a.minChunkSize * 2 ^ i ∧
      reqs.size ≤ blk.size ∧
      blk.start % blk.size = 0 := by
  simp only [ChunkedAllocator.alloc] at hok
  split at hok
  · simp at hok
  next hmax =>
    split at hok
    next i hpick =>
      split at hok
      next a2 hgrow =>
        split at hok
        · simp at hok
        next node hnode =>
          simp only [Prod.mk.injEq] at hok
          obtain ⟨h1, h2, h3⟩ := hok
          have halloc : ChunkedNode.alloc oa node owner reqs =
              ((ChunkedNode.alloc oa node owner reqs).1,
                (ChunkedNode.alloc oa node owner reqs).2.1,
                (ChunkedNode.alloc oa node owner reqs).2.2) := rfl
          rw [h1, h3] at halloc
          have hmin : a2.minChunkSize = a.minChunkSize := by
            rw [pool_grow_ok_shape hgrow]
          obtain ⟨hcs, hnwf⟩ := chunkedWF_grow hwf hgrow i node hnode
          obtain ⟨k, hk⟩ := hpow
          have hk2 : ∃ k2, node.chunkSize = 2 ^ k2 :=
            ⟨k + i, by rw [hcs, hmin, hk, pow_add]⟩
          obtain ⟨hs1, hs2, hs3⟩ := alloc_ok_block_shape hk2 hnwf halloc
          refine ⟨i, hpick, ?_, ?_, ?_⟩
          · rw [hs1, hcs, hmin]
          · rw [hs1]; exact hs2
          · rw [hs1]; exact hs3
      · simp at hok
      · simp at hok
    · simp at hok
    · simp at hok

/-- Witness for C7: the first allocation (200 bytes, alignment 64) from a
fresh pool with `min_chunk_size = 256` yields the block `[0, 256)` of node 0. -/
theorem chunked_alloc_block_shape_witness :
    ∃ i, (ChunkedAllocator.new 4 256 4096 0).pickNode (200 : Nat) = .ok i ∧
      RawBlock.size ⟨0, 0, 256⟩ =
        (ChunkedAllocator.new 4 256 4096 0).minChunkSize * 2 ^ i ∧
      (200 : Nat) ≤ RawBlock.size ⟨0, 0, 256⟩ ∧
      RawBlock.start ⟨0, 0, 256⟩ % RawBlock.size ⟨0, 0, 256⟩ = 0 :=
  chunked_alloc_block_shape RootAllocator.alloc (ChunkedAllocator.new 4 256 4096 0)
    (RootAllocator.new 0) ⟨200, 64, 1⟩ ⟨0, 0, 256⟩ 0
    ⟨0, 4, 256, 4096, [⟨0, 4, 256, [(0, 1), (0, 2), (0, 3)], [(⟨0, 0, 1024⟩, 0)]⟩,
      ⟨0, 4, 512, [], []⟩]⟩ ⟨0, 1, 1⟩
    (by unfold chunkedWF; intro i node h; simp [ChunkedAllocator.new] at h)
    ⟨8, rfl⟩ (by decide)

end GfxMem
